import Mathlib

/-!
Verification development for the claude-code-manager extension's core logic:
the hooks settings editor (`HooksService`), the permission-pattern parser
(`PermissionsService`), the file discovery of memory files
(`FileDiscoveryService`), and the file mutation operations
(`FileOperationsService`).

Settings files are JSON documents; we model JSON values directly and the
services as pure functions over such documents (the file read/write layer is
modelled as: an operation that returns `none` performed no write, an operation
that returns `some doc` wrote exactly `doc`).
-/

set_option maxRecDepth 10000

/-- JSON values as produced by `JSON.parse`.  Numbers are modelled as integers
(the only numeric field in play is the integral `timeout`).  Objects are
association lists; `JSON.parse` never produces duplicate keys, so maps are
assumed key-unique where it matters. -/
inductive Json where
  | null : Json
  | bool : Bool → Json
  | num : Int → Json
  | str : String → Json
  | arr : List Json → Json
  | obj : List (String × Json) → Json
deriving Repr

/-- JavaScript truthiness of a JSON value (`undefined` is handled at the
`Option Json` level: `none` is falsy). -/
def jsTruthy : Json → Bool
  | Json.null => false
  | Json.bool b => b
  | Json.num n => n ≠ 0
  | Json.str s => s ≠ ""
  | Json.arr _ => true
  | Json.obj _ => true

/-- Truthiness of a possibly-undefined value. -/
def optTruthy : Option Json → Bool
  | none => false
  | some v => jsTruthy v

/-- Property read `v[k]` for a string key: object lookup; `undefined` (`none`)
on anything else. -/
def getKey : Json → String → Option Json
  | Json.obj fs, k => fs.lookup k
  | _, _ => none

/-- Element read `v[i]` for a numeric index: array indexing; `undefined`
(`none`) on anything else. -/
def getIdx : Json → Nat → Option Json
  | Json.arr xs, i => xs[i]?
  | _, _ => none

/-- Assign `fields[k] = v`: replace the first binding of `k` in place, or
append a new binding (JS property assignment preserves key order and appends
new keys at the end). -/
def setField : List (String × Json) → String → Json → List (String × Json)
  | [], k, v => [(k, v)]
  | (k', v') :: rest, k, v =>
      if k' = k then (k, v) :: rest else (k', v') :: setField rest k v

/-- Property write `o[k] = v` on an object (identity on non-objects; the
services only assign into objects). -/
def setKey : Json → String → Json → Json
  | Json.obj fs, k, v => Json.obj (setField fs k v)
  | j, _, _ => j

/-- `delete o[k]`: drop the binding for `k`. -/
def delKey : Json → String → Json
  | Json.obj fs, k => Json.obj (fs.filter (fun kv => kv.1 ≠ k))
  | j, _ => j

/-- `typeof v === 'object'` — true for `null`, arrays and objects. -/
def typeofObject : Json → Bool
  | Json.null => true
  | Json.arr _ => true
  | Json.obj _ => true
  | _ => false

/-- Is the value a JSON object? -/
def isObj : Json → Bool
  | Json.obj _ => true
  | _ => false

/-- Is the value the JSON `null`? -/
def isNull : Json → Bool
  | Json.null => true
  | _ => false

/- ----------------------------------------------------------------------
HooksService (hooksService.ts): parseHooks / addHook / updateHook / deleteHook.
The discovered structures: -/

/-- One matcher entry as reconstructed by `parseHooks`: the `matcher` and
`hooks` fields are taken verbatim from the JSON (the per-hook payloads are not
validated). -/
structure HookMatcher where
  matcher : Option Json
  hooks : List Json
deriving Repr

/-- One discovered hook configuration: an event type together with its kept
matcher entries (the `location`/`configPath` metadata strings, constant per
parsed file, are omitted from the model). -/
structure HookConfiguration where
  eventType : String
  matchers : List HookMatcher
deriving Repr

/-- `Object.entries`, as used by `parseHooks` on `config.hooks`: field list for
an object; index/value pairs for an array (`typeof [] === 'object'` lets arrays
through the shape guard); empty otherwise. -/
def objEntries : Json → List (String × Json)
  | Json.obj fs => fs
  | Json.arr xs => xs.enum.map (fun p => (toString p.1, p.2))
  | _ => []

/-- Processing of one matcher entry by `parseHooks`:
`if (typeof matcherObj !== 'object' || !matcherObj.hooks ||
!Array.isArray(matcherObj.hooks)) continue;`.
Result `none` models a thrown exception: `typeof null === 'object'`, so a JSON
`null` entry passes the first test and then `null.hooks` throws a `TypeError`.
`some none` is a skipped entry, `some (some mt)` a kept one. -/
def parseMatcherObj : Json → Option (Option HookMatcher)
  | Json.null => none
  | Json.obj fs =>
      match getKey (Json.obj fs) "hooks" with
      | some (Json.arr hs) => some (some ⟨getKey (Json.obj fs) "matcher", hs⟩)
      | _ => some none
  | _ => some none

/-- Scan one event type's matcher array, keeping well-formed entries and
skipping the rest; a thrown exception (`none`) aborts. -/
def parseEventMatchers : List Json → Option (List HookMatcher)
  | [] => some []
  | e :: es =>
      match parseMatcherObj e with
      | none => none
      | some none => parseEventMatchers es
      | some (some mt) => (parseEventMatchers es).map (mt :: ·)

/-- Walk the `Object.entries` of the hooks value: non-array event values are
skipped; an event contributes a configuration only when it kept at least one
matcher. -/
def parseHooksGo : List (String × Json) → Option (List HookConfiguration)
  | [] => some []
  | (k, Json.arr es) :: rest =>
      match parseEventMatchers es with
      | none => none
      | some ms =>
          (parseHooksGo rest).map (fun cs =>
            if ms.length > 0 then ⟨k, ms⟩ :: cs else cs)
  | (_, _) :: rest => parseHooksGo rest

/-- `parseHooks` body after `JSON.parse`: reject a missing/falsy/non-object
`hooks` value, then walk its entries; the surrounding `try`/`catch` turns any
exception into an empty result for the whole file. -/
def parseHooksCore (doc : Json) : Option (List HookConfiguration) :=
  match getKey doc "hooks" with
  | some v =>
      if jsTruthy v && typeofObject v then parseHooksGo (objEntries v)
      else some []
  | none => some []

/-- `HooksService.parseHooks` on one parsed settings document. -/
def parseHooks (doc : Json) : List HookConfiguration :=
  (parseHooksCore doc).getD []

/-- The `addHook` matcher search
`settings.hooks[eventType].find((m) => m.matcher === matcher)`:
strict JS equality of the entry's `matcher` field with the given string
(`undefined`/missing and non-string fields never compare equal). -/
def matcherFieldIs (e : Json) (m : String) : Bool :=
  match getKey e "matcher" with
  | some (Json.str s) => s = m
  | _ => false

/-- Index of the first entry whose `matcher` field strictly equals `m`.
`none` models the callback throwing (property access on a `null` element);
`some none` means no entry matched; `some (some i)` the first match. -/
def findMatcherIdx : List Json → String → Option (Option Nat)
  | [], _ => some (none : Option Nat)
  | e :: es, m =>
      if isNull e then none
      else if matcherFieldIs e m then some (some 0)
      else (findMatcherIdx es m).map (Option.map Nat.succ)

/-- The `addHook` initialization `if (!settings.hooks) settings.hooks = {}`:
the hooks value the operation works on — the existing truthy value, or a fresh
empty object. -/
def normHooksVal (doc : Json) : Json :=
  match getKey doc "hooks" with
  | some v => if jsTruthy v then v else Json.obj []
  | none => Json.obj []

/-- The `addHook` initialization
`if (!settings.hooks[eventType]) settings.hooks[eventType] = []`. -/
def normEtArr (hooksVal : Json) (eventType : String) : Json :=
  match getKey hooksVal eventType with
  | some v => if jsTruthy v then v else Json.arr []
  | none => Json.arr []

/-- The fresh matcher entry `{ matcher, hooks: [] }` with the hook pushed. -/
def newMatcherEntry (matcher : String) (hook : Json) : Json :=
  Json.obj [("matcher", Json.str matcher), ("hooks", Json.arr [hook])]

/-- `HooksService.addHook` at the document level: the settings document is the
freshly read file content (or `{}` when the file did not exist).  Returns the
written document, or `none` when the operation failed (threw) and wrote
nothing. -/
def addHook (doc : Json) (eventType matcher : String) (hook : Json) : Option Json :=
  match doc with
  | Json.obj _ =>
    match normHooksVal doc with
    | Json.obj hfs =>
      match normEtArr (Json.obj hfs) eventType with
      | Json.arr entries =>
        match findMatcherIdx entries matcher with
        | none => none
        | some (some i) =>
            match entries[i]? with
            | some entry =>
                match getKey entry "hooks" with
                | some (Json.arr hs) =>
                    some (setKey doc "hooks" (setKey (Json.obj hfs) eventType
                      (Json.arr (entries.set i
                        (setKey entry "hooks" (Json.arr (hs ++ [hook])))))))
                | _ => none
            | none => none
        | some none =>
            some (setKey doc "hooks" (setKey (Json.obj hfs) eventType
              (Json.arr (entries ++ [newMatcherEntry matcher hook]))))
      | _ => none
    | _ => none
  | _ => none

/-- `HooksService.updateHook` at the document level: re-resolve
`hooks[eventType][matcherIndex].hooks[hookIndex]` against the freshly read
document; any break in the chain (or a falsy hook value) fails with no write. -/
def updateHook (doc : Json) (eventType : String) (mi hi : Nat)
    (newHook : Json) : Option Json :=
  match doc with
  | Json.obj _ =>
    match getKey doc "hooks" with
    | some (Json.obj hfs) =>
      match getKey (Json.obj hfs) eventType with
      | some (Json.arr entries) =>
        match entries[mi]? with
        | some entry =>
          match entry with
          | Json.obj _ =>
            match getKey entry "hooks" with
            | some (Json.arr hs) =>
              match hs[hi]? with
              | some hv =>
                  if jsTruthy hv then
                    some (setKey doc "hooks" (setKey (Json.obj hfs) eventType
                      (Json.arr (entries.set mi
                        (setKey entry "hooks" (Json.arr (hs.set hi newHook)))))))
                  else none
              | none => none
            | _ => none
          | _ => none
        | none => none
      | _ => none
    | _ => none
  | _ => none

/-- The cascade cleanup of `deleteHook` after the hook splice (`hooksLeft` is
the matcher entry's hooks array with the addressed hook removed): drop the
matcher entry when its hooks list became empty, then the event-type array
when it became empty, then the whole `hooks` key when no event types
remain. -/
def deleteHookCleanup (doc : Json) (hfs : List (String × Json))
    (eventType : String) (entries : List Json) (mi : Nat) (entry : Json)
    (hooksLeft : List Json) : Json :=
  if hooksLeft.length = 0 then
    if (entries.eraseIdx mi).length = 0 then
      match delKey (Json.obj hfs) eventType with
      | Json.obj [] => delKey doc "hooks"
      | hooksVal => setKey doc "hooks" hooksVal
    else
      setKey doc "hooks" (setKey (Json.obj hfs) eventType
        (Json.arr (entries.eraseIdx mi)))
  else
    setKey doc "hooks" (setKey (Json.obj hfs) eventType
      (Json.arr (entries.set mi (setKey entry "hooks" (Json.arr hooksLeft)))))

/-- `HooksService.deleteHook` at the document level: same re-resolution as
`updateHook`, then `splice` out the hook and cascade the cleanup of empty
structures (matcher entry, event-type array, `hooks` key). -/
def deleteHook (doc : Json) (eventType : String) (mi hi : Nat) : Option Json :=
  match doc with
  | Json.obj _ =>
    match getKey doc "hooks" with
    | some (Json.obj hfs) =>
      match getKey (Json.obj hfs) eventType with
      | some (Json.arr entries) =>
        match entries[mi]? with
        | some entry =>
          match entry with
          | Json.obj _ =>
            match getKey entry "hooks" with
            | some (Json.arr hs) =>
              match hs[hi]? with
              | some hv =>
                  if jsTruthy hv then
                    some (deleteHookCleanup doc hfs eventType entries mi entry
                      (hs.eraseIdx hi))
                  else none
              | none => none
            | _ => none
          | _ => none
        | none => none
      | _ => none
    | _ => none
  | _ => none

/- Well-formedness of the hooks substructure, matching the documented settings
shape (§6): `hooks` maps event names to arrays of matcher-entry objects, each
with a `hooks` array of hook objects. -/

/-- A hook payload is an object. -/
def wfHook (h : Json) : Bool := isObj h

/-- A matcher entry is an object whose `hooks` field is an array of hook
objects. -/
def wfEntry (e : Json) : Bool :=
  isObj e &&
    match getKey e "hooks" with
    | some (Json.arr hs) => hs.all wfHook
    | _ => false

/-- A well-formed hooks value: an object whose every field is an array of
well-formed matcher entries, with unique event keys. -/
def wfHooksVal : Json → Bool
  | Json.obj fs =>
      decide (fs.map Prod.fst).Nodup &&
        fs.all (fun kv =>
          match kv.2 with
          | Json.arr es => es.all wfEntry
          | _ => false)
  | _ => false

/-- A well-formed settings document: an object whose `hooks` field, when
present, is well-formed. -/
def wfSettings (doc : Json) : Bool :=
  isObj doc &&
    match getKey doc "hooks" with
    | some v => wfHooksVal v
    | none => true

/-- Structural existence of the addressed hook path
(eventType, matcherIndex, hookIndex) in a settings document: a `hooks` value
mapping the event type to an array whose `matcherIndex`-th entry has a `hooks`
array with `hookIndex` in range. -/
def hookPathExists (doc : Json) (eventType : String) (mi hi : Nat) : Bool :=
  match getKey doc "hooks" with
  | some hv =>
      match getKey hv eventType with
      | some (Json.arr entries) =>
          match entries[mi]? with
          | some entry =>
              match getKey entry "hooks" with
              | some (Json.arr hs) => hi < hs.length
              | _ => false
          | none => false
      | _ => false
  | none => false

/- ----------------------------------------------------------------------
PermissionsService.parsePermissionPattern: the regex
`^(\w+)[\(:](.*?)[\)]?$` applied to a permission string, with the fallback
`{ tool: pattern, pattern: '*' }` when the regex does not match.  We model
strings as character lists.  Since `(` and `:` are not word characters, the
greedy `(\w+)` group can only match the maximal leading word-character run,
and the lazy `(.*?)` group takes the remainder minus an optional trailing
`)` (preferring to drop it), with `.` not matching line terminators. -/

/-- JS `\w`: ASCII letters, digits and underscore. -/
def isWordChar (c : Char) : Bool :=
  (('a' ≤ c && c ≤ 'z') || ('A' ≤ c && c ≤ 'Z') || ('0' ≤ c && c ≤ '9')) || c = '_'

/-- The four ECMAScript line terminators, which JS `.` does not match:
newline, carriage return, and the line/paragraph separators U+2028/U+2029. -/
def isRegexNewline (c : Char) : Bool :=
  c = '\n' || c = '\r' || c = '\u2028' || c = '\u2029'

/-- Split off the maximal leading run of word characters. -/
def takeWordRun : List Char → List Char × List Char
  | [] => ([], [])
  | c :: cs =>
      if isWordChar c then
        let p := takeWordRun cs
        (c :: p.1, p.2)
      else ([], c :: cs)

/-- The regex match of `^(\w+)[\(:](.*?)[\)]?$` on `s`: `some (tool, body)`
with the two capture groups, or `none` when the regex fails. -/
def regexCaptures (s : List Char) : Option (List Char × List Char) :=
  match takeWordRun s with
  | (w, d :: rest) =>
      if w ≠ [] ∧ (d = '(' ∨ d = ':') then
        let m := if rest.getLast? = some ')' then rest.dropLast else rest
        if m.any isRegexNewline then none else some (w, m)
      else none
  | (_, []) => none

/-- `parsePermissionPattern` on character lists: on a regex match the tool is
group 1 and the pattern group 2 (`match[2] || '*'` turns an empty capture into
`*`); otherwise the whole string is the tool with pattern `*`. -/
def parsePatternChars (s : List Char) : List Char × List Char :=
  match regexCaptures s with
  | some (w, m) => (w, if m = [] then ['*'] else m)
  | none => (s, ['*'])

/-- `PermissionsService.parsePermissionPattern` on strings. -/
def parsePermissionPattern (s : String) : String × String :=
  let p := parsePatternChars s.toList
  (p.1.asString, p.2.asString)

/-- The claim's `Tool(pattern)` shape: a nonempty word-character tool name,
an opening parenthesis, any pattern body, a closing parenthesis. -/
def shapeParen (s : List Char) : Prop :=
  ∃ w p, w ≠ [] ∧ w.all isWordChar ∧ s = w ++ '(' :: p ++ [')']

/-- The claim's `Tool:pattern` shape. -/
def shapeColon (s : List Char) : Prop :=
  ∃ w p, w ≠ [] ∧ w.all isWordChar ∧ s = w ++ ':' :: p

/-- The claim's bare-word shape: nonempty, only word characters. -/
def shapeBare (s : List Char) : Prop :=
  s ≠ [] ∧ s.all isWordChar

/- ----------------------------------------------------------------------
FileOperationsService: a small filesystem model.  A path is its list of
segments; the filesystem records the existing files and directories. -/

/-- A filesystem path, as its list of segments. -/
abbrev FsPath := List String

/-- Filesystem state: which files and which directories exist. -/
structure FileSys where
  files : List FsPath
  dirs : List FsPath
deriving Repr, DecidableEq

/-- The three "grouping" directory names of `deleteFile`. -/
def GROUP_DIRS : List String := ["skills", "agents", "commands"]

/-- `fs.promises.readdir(d)` is empty: no file or directory lies directly
inside `d`. -/
def dirIsEmpty (sys : FileSys) (d : FsPath) : Bool :=
  sys.files.all (fun f => f.dropLast ≠ d) && sys.dirs.all (fun x => x.dropLast ≠ d)

/-- `FileOperationsService.deleteFile` (after the confirmation dialog, whose
answer is the `confirmed` argument): directories are removed recursively;
a single file is unlinked, and then — keyed on
`path.basename(path.dirname(parentDir))`, the name of the file's
*grandparent* directory — an empty parent directory is removed best-effort. -/
def deleteFile (sys : FileSys) (p : FsPath) (confirmed : Bool) : Bool × FileSys :=
  if ¬ confirmed then (false, sys)
  else if sys.dirs.contains p then
    (true, ⟨sys.files.filter (fun f => ¬ p.isPrefixOf f),
            sys.dirs.filter (fun d => ¬ p.isPrefixOf d)⟩)
  else if sys.files.contains p then
    let sys1 : FileSys := ⟨sys.files.filter (· ≠ p), sys.dirs⟩
    let parentDir := p.dropLast
    let grandName := parentDir.dropLast.getLast?
    let sys2 : FileSys :=
      match grandName with
      | some n =>
          if n ∈ GROUP_DIRS ∧ sys1.dirs.contains parentDir ∧ dirIsEmpty sys1 parentDir
          then ⟨sys1.files, sys1.dirs.filter (· ≠ parentDir)⟩
          else sys1
      | none => sys1
    (true, sys2)
  else (false, sys)

/-- The user's answer to the collision dialog of `moveFile`. -/
inductive CollisionChoice where
  | overwrite : CollisionChoice
  | rename : String → CollisionChoice
  | cancel : CollisionChoice
deriving Repr, DecidableEq

/-- The nonempty prefixes of a path, shortest first. -/
def fsPrefixes (p : FsPath) : List FsPath :=
  (List.range p.length).map (fun i => p.take (i + 1))

/-- `fs.promises.mkdir(d, recursive)` : create `d` and all missing ancestors. -/
def mkdirp (sys : FileSys) (d : FsPath) : FileSys :=
  ⟨sys.files, sys.dirs ++ (fsPrefixes d).filter (fun q => ¬ sys.dirs.contains q)⟩

/-- `fs.promises.access`-style existence: any entry at the path. -/
def pathExistsIn (sys : FileSys) (p : FsPath) : Bool :=
  sys.files.contains p || sys.dirs.contains p

/-- The collision-dialog phase of `moveFile`: the effective target path, or
`none` when the user cancelled. -/
def resolveMoveTarget (sys : FileSys) (target : FsPath)
    (choice : CollisionChoice) : Option FsPath :=
  if pathExistsIn sys target then
    match choice with
    | CollisionChoice.cancel => none
    | CollisionChoice.rename n => some (target.dropLast ++ [n])
    | CollisionChoice.overwrite => some target
  else some target

/-- `FileOperationsService.moveFile`: collision dialog when the target exists,
then `mkdir -p` of the target directory, then a single `rename`.  The `rename`
of a missing source throws — but the directories just created stay. -/
def moveFile (sys : FileSys) (source target : FsPath)
    (choice : CollisionChoice) : Bool × FileSys :=
  match resolveMoveTarget sys target choice with
  | none => (false, sys)
  | some t =>
      let sys1 := mkdirp sys t.dropLast
      if sys1.files.contains source then
        (true, ⟨t :: (sys1.files.filter (fun f => f ≠ source ∧ f ≠ t)), sys1.dirs⟩)
      else if sys1.dirs.contains source then
        (true, ⟨sys1.files.map (fun f =>
                  if source.isPrefixOf f then t ++ f.drop source.length else f),
                sys1.dirs.map (fun d =>
                  if source.isPrefixOf d then t ++ d.drop source.length else d)⟩)
      else (false, sys1)

/- ----------------------------------------------------------------------
FileDiscoveryService.discoverMemories / findNestedClaudeFiles. -/

/-- Scope of a discovered item. -/
inductive LocationScope where
  | global : LocationScope
  | project : LocationScope
  | nested : LocationScope
deriving Repr, DecidableEq

/-- A discovered artifact (`createClaudeFile` output restricted to the fields
memory discovery sets: `type` is the constant `'memory'`, `isDirectory` and
`parentType` are never set on memories). -/
structure ClaudeFile where
  name : String
  path : FsPath
  scope : LocationScope
  scopeLabel : String
deriving Repr, DecidableEq

/-- `CLAUDE_MD_PATTERNS`. -/
def CLAUDE_MD_PATTERNS : List String := ["CLAUDE.md", "claude.md"]

/-- `createClaudeFile`: name is the basename of the path. -/
def createClaudeFile (p : FsPath) (scope : LocationScope)
    (scopeLabel : String) : ClaudeFile :=
  ⟨(p.getLast?).getD "", p, scope, scopeLabel⟩

/-- The canonical-location loop: the first memory filename variant that exists
directly under `base` (the `break` keeps at most one). -/
def firstMemoryAt (files : List FsPath) (base : FsPath) : Option FsPath :=
  (CLAUDE_MD_PATTERNS.map (fun pat => base ++ [pat])).find? (files.contains ·)

/-- `vscode.workspace.findFiles` for the glob `**/pat` with exclude
`**/node_modules/**` and a limit of 100 results: the workspace files with
basename `pat`, not under a `node_modules` directory inside the workspace. -/
def findFilesIn (files : List FsPath) (ws : FsPath) (pat : String) : List FsPath :=
  (files.filter (fun f =>
    ws.isPrefixOf f ∧ f.getLast? = some pat ∧
      ¬ ((f.drop ws.length).dropLast.contains "node_modules"))).take 100

/-- `path.relative(rootPath, path.dirname(f))` rendered with `/`. -/
def relativeDirLabel (ws : FsPath) (f : FsPath) : String :=
  String.intercalate "/" ((f.dropLast).drop ws.length)

/-- `FileDiscoveryService.findNestedClaudeFiles`: for each filename variant,
every workspace match except those directly at the workspace root becomes a
nested-scope item. -/
def findNestedClaudeFiles (files : List FsPath) (ws : FsPath) : List ClaudeFile :=
  CLAUDE_MD_PATTERNS.flatMap (fun pat =>
    (findFilesIn files ws pat).filterMap (fun f =>
      if f.dropLast = ws then none
      else some (createClaudeFile f LocationScope.nested (relativeDirLabel ws f))))

/-- Global canonical memory item (at most one). -/
def globalMemoryItems (files : List FsPath) (globalRoot : FsPath) : List ClaudeFile :=
  match firstMemoryAt files globalRoot with
  | some p => [createClaudeFile p LocationScope.global "Global"]
  | none => []

/-- Project-root canonical memory item (at most one). -/
def projectRootMemoryItems (files : List FsPath) (ws : FsPath) : List ClaudeFile :=
  match firstMemoryAt files ws with
  | some p => [createClaudeFile p LocationScope.project "Project Root"]
  | none => []

/-- `.claude`-subdirectory canonical memory item (at most one). -/
def dotClaudeMemoryItems (files : List FsPath) (ws : FsPath) : List ClaudeFile :=
  match firstMemoryAt files (ws ++ [".claude"]) with
  | some p => [createClaudeFile p LocationScope.project "Project .claude"]
  | none => []

/-- `FileDiscoveryService.discoverMemories`: global canonical item, then (when
a workspace is open) project-root canonical item, `.claude` canonical item,
and the nested search results. -/
def discoverMemories (files : List FsPath) (globalRoot : FsPath)
    (ws : Option FsPath) : List ClaudeFile :=
  globalMemoryItems files globalRoot ++
    match ws with
    | none => []
    | some w =>
        projectRootMemoryItems files w ++ dotClaudeMemoryItems files w ++
          findNestedClaudeFiles files w

/- ----------------------------------------------------------------------
Supporting lemmas: the word-run splitter. -/

theorem takeWordRun_all_word (l : List Char) (h : l.all isWordChar = true) :
    takeWordRun l = (l, []) := by
  induction l with
  | nil => rfl
  | cons c cs ih =>
      simp only [List.all_cons, Bool.and_eq_true] at h
      simp [takeWordRun, h.1, ih h.2]

theorem takeWordRun_append (w : List Char) (d : Char) (rest : List Char)
    (hw : w.all isWordChar = true) (hd : isWordChar d = false) :
    takeWordRun (w ++ d :: rest) = (w, d :: rest) := by
  induction w with
  | nil => simp [takeWordRun, hd]
  | cons c cs ih =>
      simp only [List.all_cons, Bool.and_eq_true] at hw
      simp [takeWordRun, hw.1, ih hw.2]

/-- `shapeColon` strings contain a colon. -/
theorem shapeColon_mem (s : List Char) (h : shapeColon s) : ':' ∈ s := by
  obtain ⟨w, p, _, _, rfl⟩ := h
  simp

/-- `shapeParen` strings contain a closing parenthesis. -/
theorem shapeParen_mem (s : List Char) (h : shapeParen s) : ')' ∈ s := by
  obtain ⟨w, p, _, _, rfl⟩ := h
  simp

/-- C4, counterexample.  The string `"Bash(foo"` is malformed — it is neither
`Tool(pattern)` nor `Tool:pattern` nor a bare word — yet parsing does not fall
back to the whole string with pattern `*`: the optional trailing-parenthesis
regex still matches and yields `("Bash", "foo")`. -/
theorem C4_counterexample :
    parsePermissionPattern "Bash(foo" = ("Bash", "foo") ∧
    ¬ shapeParen "Bash(foo".toList ∧
    ¬ shapeColon "Bash(foo".toList ∧
    ¬ shapeBare "Bash(foo".toList ∧
    parsePermissionPattern "Bash(foo" ≠ ("Bash(foo", "*") := by
  refine ⟨by decide, ?_, ?_, ?_, by decide⟩
  · intro h
    have := shapeParen_mem _ h
    revert this
    decide
  · intro h
    have := shapeColon_mem _ h
    revert this
    decide
  · rintro ⟨-, hall⟩
    revert hall
    decide

/-- C4, amended.  For `Tool(pattern)` with a nonempty line-terminator-free
pattern, parsing yields exactly `(Tool, pattern)`, an empty pattern becoming
`*`; for `Tool:pattern` the same holds provided the pattern does not end in
`)` (a trailing `)` would be stripped by the optional group); a bare word of
word characters yields `(word, "*")`; parsing is total and any string the
regex rejects (e.g. one starting with a non-word character) yields the whole
string as tool with pattern `*`. -/
theorem C4_permission_parse_amended :
    (∀ w p : List Char, w ≠ [] → w.all isWordChar = true →
       p.any isRegexNewline = false →
       parsePatternChars (w ++ '(' :: (p ++ [')'])) =
         (w, if p = [] then ['*'] else p)) ∧
    (∀ w p : List Char, w ≠ [] → w.all isWordChar = true →
       p.any isRegexNewline = false → p.getLast? ≠ some ')' →
       parsePatternChars (w ++ ':' :: p) = (w, if p = [] then ['*'] else p)) ∧
    (∀ w : List Char, w ≠ [] → w.all isWordChar = true →
       parsePatternChars w = (w, ['*'])) ∧
    (∀ s : List Char, regexCaptures s = none →
       parsePatternChars s = (s, ['*'])) := by
  refine ⟨?_, ?_, ?_, ?_⟩
  · intro w p hw hword hnl
    have hsplit := takeWordRun_append w '(' (p ++ [')']) hword (by decide)
    simp only [parsePatternChars, regexCaptures, hsplit, hw, ne_eq,
      not_false_eq_true, true_and, if_pos (Or.inl rfl)]
    rw [List.getLast?_concat, if_pos rfl, List.dropLast_concat, hnl]
    simp
  · intro w p hw hword hnl hlast
    have hsplit := takeWordRun_append w ':' p hword (by decide)
    simp only [parsePatternChars, regexCaptures, hsplit, hw, ne_eq,
      not_false_eq_true, true_and, if_pos (Or.inr rfl)]
    rw [if_neg hlast, hnl]
    simp
  · intro w hw hword
    simp [parsePatternChars, regexCaptures, takeWordRun_all_word w hword]
  · intro s hs
    simp [parsePatternChars, hs]

/-- C4, witness: the amended theorem at the spec's own example
`Bash(rm -rf /)`, at a `Tool:pattern` string, and at a bare word. -/
theorem C4_permission_parse_amended_witness :
    parsePatternChars ("Bash".toList ++ '(' :: ("rm -rf /".toList ++ [')'])) =
      ("Bash".toList, "rm -rf /".toList) ∧
    parsePatternChars ("Bash".toList ++ ':' :: "npm *".toList) =
      ("Bash".toList, "npm *".toList) ∧
    parsePatternChars "WebFetch".toList = ("WebFetch".toList, ['*']) := by
  refine ⟨?_, ?_, ?_⟩
  · have h := C4_permission_parse_amended.1 "Bash".toList "rm -rf /".toList
      (by decide) (by decide) (by decide)
    rw [h]
    decide
  · have h := C4_permission_parse_amended.2.1 "Bash".toList "npm *".toList
      (by decide) (by decide) (by decide) (by decide)
    rw [h]
    decide
  · exact C4_permission_parse_amended.2.2.1 "WebFetch".toList (by decide) (by decide)

/- ----------------------------------------------------------------------
C1: uniqueness of paths in one memory-discovery pass. -/

/-- A workspace whose only memory file sits at the canonical `.claude`
location. -/
def c1files : List FsPath := [["ws", ".claude", "CLAUDE.md"]]

/-- C1, counterexample.  The nested search skips only files directly at the
workspace root, not the canonical `.claude` file: a project whose `.claude`
directory holds a memory file gets that file discovered twice — once as the
canonical project-scope item and once as a nested item — so `path` is not
unique within the pass. -/
theorem C1_counterexample :
    ¬ ((discoverMemories c1files ["home", ".claude"] (some ["ws"])).map
        ClaudeFile.path).Nodup := by
  decide

/-- C1, amended.  Each canonical location contributes at most one item, and
the nested search never re-emits a file lying directly at the project root
(the top-level canonical file); it can however re-emit the `.claude`
canonical file.  In particular the spec's scenario — one top-level canonical
file and three nested ones, no `.claude` file — yields exactly one
project-scope item and three nested-scope items with pairwise distinct
paths. -/
theorem C1_memory_discovery_amended :
    (∀ files globalRoot, (globalMemoryItems files globalRoot).length ≤ 1) ∧
    (∀ files ws, (projectRootMemoryItems files ws).length ≤ 1) ∧
    (∀ files ws, (dotClaudeMemoryItems files ws).length ≤ 1) ∧
    (∀ files ws f, f ∈ findNestedClaudeFiles files ws → f.path.dropLast ≠ ws) ∧
    (discoverMemories
        [["ws", "CLAUDE.md"], ["ws", "a", "CLAUDE.md"],
         ["ws", "b", "CLAUDE.md"], ["ws", "c", "d", "CLAUDE.md"]]
        ["home", ".claude"] (some ["ws"]) =
      [⟨"CLAUDE.md", ["ws", "CLAUDE.md"], LocationScope.project, "Project Root"⟩,
       ⟨"CLAUDE.md", ["ws", "a", "CLAUDE.md"], LocationScope.nested, "a"⟩,
       ⟨"CLAUDE.md", ["ws", "b", "CLAUDE.md"], LocationScope.nested, "b"⟩,
       ⟨"CLAUDE.md", ["ws", "c", "d", "CLAUDE.md"], LocationScope.nested, "c/d"⟩] ∧
     ((discoverMemories
        [["ws", "CLAUDE.md"], ["ws", "a", "CLAUDE.md"],
         ["ws", "b", "CLAUDE.md"], ["ws", "c", "d", "CLAUDE.md"]]
        ["home", ".claude"] (some ["ws"])).map ClaudeFile.path).Nodup) := by
  refine ⟨?_, ?_, ?_, ?_, by decide⟩
  · intro files globalRoot
    unfold globalMemoryItems
    cases firstMemoryAt files globalRoot <;> simp
  · intro files ws
    unfold projectRootMemoryItems
    cases firstMemoryAt files ws <;> simp
  · intro files ws
    unfold dotClaudeMemoryItems
    cases firstMemoryAt files (ws ++ [".claude"]) <;> simp
  · intro files ws f hf
    simp only [findNestedClaudeFiles, List.mem_flatMap, List.mem_filterMap] at hf
    obtain ⟨pat, -, g, -, hg⟩ := hf
    by_cases hroot : g.dropLast = ws
    · simp [hroot] at hg
    · have : createClaudeFile g LocationScope.nested (relativeDirLabel ws g) = f := by
        simpa [hroot] using hg
      subst this
      simpa [createClaudeFile] using hroot

/-- C1, witness for the amended theorem: the general conjuncts instantiated at
the counterexample workspace. -/
theorem C1_memory_discovery_amended_witness :
    (globalMemoryItems c1files ["home", ".claude"]).length ≤ 1 ∧
    (createClaudeFile ["ws", "a", "CLAUDE.md"] LocationScope.nested "a").path.dropLast ≠
      ["ws"] :=
  ⟨C1_memory_discovery_amended.1 c1files ["home", ".claude"],
   C1_memory_discovery_amended.2.2.2.1
     [["ws", "a", "CLAUDE.md"]] ["ws"]
     (createClaudeFile ["ws", "a", "CLAUDE.md"] LocationScope.nested "a")
     (by decide)⟩

/- ----------------------------------------------------------------------
C2: which directory `deleteFile` cleans up after removing a single file. -/

/-- A global `.claude` tree whose `skills` directory holds one loose file. -/
def c2sys : FileSys :=
  ⟨[["h", ".claude", "skills", "foo.md"]],
   [["h"], ["h", ".claude"], ["h", ".claude", "skills"]]⟩

/-- C2, counterexample.  Deleting the single file
`h/.claude/skills/foo.md` leaves its parent directory `h/.claude/skills` in
place even though that parent's name (`skills`) is a grouping name and the
parent is now empty — because the code keys the cleanup on the name of the
*grandparent* directory (`path.basename(path.dirname(parentDir))`), which is
`.claude` here. -/
theorem C2_counterexample :
    (deleteFile c2sys ["h", ".claude", "skills", "foo.md"] true).1 = true ∧
    (["h", ".claude", "skills"] : FsPath).getLast? = some "skills" ∧
    "skills" ∈ GROUP_DIRS ∧
    dirIsEmpty (deleteFile c2sys ["h", ".claude", "skills", "foo.md"] true).2
      ["h", ".claude", "skills"] = true ∧
    ["h", ".claude", "skills"] ∈
      (deleteFile c2sys ["h", ".claude", "skills", "foo.md"] true).2.dirs := by
  decide

/-- C2, amended.  After removing a single file, `deleteFile` removes the
file's (existing) parent directory if and only if the parent's *parent*
directory — the grandparent of the file — is named `skills`, `agents` or
`commands` and the parent is empty after the unlink; failure of that cleanup
is ignored and the delete reports success either way. -/
theorem C2_delete_parent_cleanup_amended (sys : FileSys) (p : FsPath)
    (hfile : p ∈ sys.files) (hnotdir : p ∉ sys.dirs)
    (hparent : p.dropLast ∈ sys.dirs) :
    (deleteFile sys p true).1 = true ∧
    (p.dropLast ∉ (deleteFile sys p true).2.dirs ↔
      (∃ n, p.dropLast.dropLast.getLast? = some n ∧ n ∈ GROUP_DIRS) ∧
        dirIsEmpty ⟨sys.files.filter (· ≠ p), sys.dirs⟩ p.dropLast = true) := by
  have hdirs : sys.dirs.contains p = false := by
    simpa using hnotdir
  have hfiles : sys.files.contains p = true := by
    simpa using hfile
  simp only [deleteFile, not_true_eq_false, Bool.false_eq_true, if_false, hdirs,
    hfiles, if_true]
  refine ⟨?_, ?_⟩
  · trivial
  · rcases hsplit : p.dropLast.dropLast.getLast? with - | n
    · simp only [hsplit]
      constructor
      · intro hgone
        exact absurd hparent hgone
      · rintro ⟨⟨n, heq, -⟩, -⟩
        cases heq
    · simp only [hsplit]
      split
      · rename_i hin
        constructor
        · intro _
          exact ⟨⟨n, rfl, hin.1⟩, hin.2.2⟩
        · intro _
          simp
      · rename_i hin
        constructor
        · intro hgone
          exact absurd hparent hgone
        · rintro ⟨⟨n', heq, hgroup⟩, hempty⟩
          obtain rfl : n = n' := by
            injection heq
          have hcontains : sys.dirs.contains p.dropLast = true := by
            simpa using hparent
          exact absurd ⟨hgroup, hcontains, hempty⟩ hin

/-- C2, witness: the amended theorem at a file whose grandparent is named
`skills`; the parent folder is cleaned up. -/
theorem C2_delete_parent_cleanup_amended_witness :
    (deleteFile ⟨[["h", "skills", "group", "foo.md"]],
       [["h"], ["h", "skills"], ["h", "skills", "group"]]⟩
       ["h", "skills", "group", "foo.md"] true).1 = true ∧
    ["h", "skills", "group"] ∉
      (deleteFile ⟨[["h", "skills", "group", "foo.md"]],
         [["h"], ["h", "skills"], ["h", "skills", "group"]]⟩
         ["h", "skills", "group", "foo.md"] true).2.dirs :=
  ⟨(C2_delete_parent_cleanup_amended _ _ (by decide) (by decide) (by decide)).1,
   (C2_delete_parent_cleanup_amended
      ⟨[["h", "skills", "group", "foo.md"]],
       [["h"], ["h", "skills"], ["h", "skills", "group"]]⟩
      ["h", "skills", "group", "foo.md"]
      (by decide) (by decide) (by decide)).2.mpr
     ⟨⟨"skills", by decide, by decide⟩, by decide⟩⟩

/- ----------------------------------------------------------------------
C3: filesystem state after a failed mutation. -/

/-- A filesystem with just one root directory and no files. -/
def c3sys : FileSys := ⟨[], [["h"]]⟩

/-- C3, counterexample.  Moving a nonexistent source file fails — but
`moveFile` has already created the whole target directory chain
(`mkdir(targetDir, recursive)` runs before the `rename`), so the reported
failure leaves the filesystem changed: new directories remain. -/
theorem C3_counterexample :
    (moveFile c3sys ["h", "a.md"] ["h", ".claude", "commands", "a.md"]
      CollisionChoice.cancel).1 = false ∧
    (moveFile c3sys ["h", "a.md"] ["h", ".claude", "commands", "a.md"]
      CollisionChoice.cancel).2 ≠ c3sys := by
  decide

/-- C3, amended.  Every mutation returns a definite success/failure signal,
and a failed `moveFile` never changes any file contents or removes anything —
but it may leave behind the target directories it created before the failing
`rename`; likewise an unconfirmed `deleteFile` changes nothing. -/
theorem C3_mutation_failure_amended :
    (∀ sys source target choice,
       (moveFile sys source target choice).1 = false →
         (moveFile sys source target choice).2.files = sys.files ∧
           ∀ d ∈ sys.dirs, d ∈ (moveFile sys source target choice).2.dirs) ∧
    (∀ sys p, deleteFile sys p false = (false, sys)) := by
  constructor
  · intro sys source target choice hfail
    unfold moveFile at hfail ⊢
    rcases hres : resolveMoveTarget sys target choice with - | t
    · exact ⟨rfl, fun d hd => hd⟩
    · by_cases hsrc : (mkdirp sys t.dropLast).files.contains source = true
      · have hsrc' : source ∈ (mkdirp sys t.dropLast).files := by
          simpa using hsrc
        simp [hres, hsrc'] at hfail
      · rw [Bool.not_eq_true] at hsrc
        simp only [hsrc, Bool.false_eq_true, if_false] at hfail ⊢
        by_cases hsd : (mkdirp sys t.dropLast).dirs.contains source = true
        · have hsd' : source ∈ (mkdirp sys t.dropLast).dirs := by
            simpa using hsd
          have hsrc' : source ∉ (mkdirp sys t.dropLast).files := by
            simpa using hsrc
          simp [hres, hsrc', hsd'] at hfail
        · rw [Bool.not_eq_true] at hsd
          simp only [hsd, Bool.false_eq_true, if_false]
          exact ⟨rfl, fun d hd => by simp [mkdirp, hd]⟩
  · intro sys p
    simp [deleteFile]

/-- C3, witness: the amended theorem at the counterexample move. -/
theorem C3_mutation_failure_amended_witness :
    (moveFile c3sys ["h", "a.md"] ["h", ".claude", "commands", "a.md"]
      CollisionChoice.cancel).2.files = c3sys.files ∧
    ["h"] ∈ (moveFile c3sys ["h", "a.md"] ["h", ".claude", "commands", "a.md"]
      CollisionChoice.cancel).2.dirs :=
  ⟨(C3_mutation_failure_amended.1 c3sys ["h", "a.md"]
      ["h", ".claude", "commands", "a.md"] CollisionChoice.cancel (by decide)).1,
   (C3_mutation_failure_amended.1 c3sys ["h", "a.md"]
      ["h", ".claude", "commands", "a.md"] CollisionChoice.cancel (by decide)).2
     ["h"] (by decide)⟩

/- ----------------------------------------------------------------------
Association-list lemmas for the JSON object operations. -/

theorem lookup_setField_self (fs : List (String × Json)) (k : String) (v : Json) :
    (setField fs k v).lookup k = some v := by
  induction fs with
  | nil => simp [setField]
  | cons kv rest ih =>
      by_cases hk : kv.1 = k
      · simp [setField, hk]
      · simp [setField, hk, List.lookup, ih, beq_false_of_ne (Ne.symm hk)]

theorem lookup_setField_ne (fs : List (String × Json)) (k k' : String) (v : Json)
    (h : k' ≠ k) : (setField fs k v).lookup k' = fs.lookup k' := by
  induction fs with
  | nil => simp [setField, List.lookup, beq_false_of_ne h]
  | cons kv rest ih =>
      by_cases hk : kv.1 = k
      · subst hk
        simp [setField, List.lookup, beq_false_of_ne h]
      · simp only [setField, hk, if_false, List.lookup]
        cases hbeq : (k' == kv.1) <;> simp [hbeq, ih]

theorem getKey_setKey_self (fs : List (String × Json)) (k : String) (v : Json) :
    getKey (setKey (Json.obj fs) k v) k = some v := by
  simp [setKey, getKey, lookup_setField_self]

theorem getKey_setKey_ne (j : Json) (k k' : String) (v : Json) (h : k' ≠ k) :
    getKey (setKey j k v) k' = getKey j k' := by
  cases j <;> simp [setKey, getKey, lookup_setField_ne _ _ _ _ h]

theorem getKey_delKey_self (fs : List (String × Json)) (k : String) :
    getKey (delKey (Json.obj fs) k) k = none := by
  simp only [delKey, getKey]
  induction fs with
  | nil => simp
  | cons kv rest ih =>
      by_cases hk : kv.1 = k
      · simpa [List.filter, hk] using ih
      · simpa [List.filter, hk, List.lookup, beq_false_of_ne (Ne.symm hk)] using ih

theorem getKey_delKey_ne (j : Json) (k k' : String) (h : k' ≠ k) :
    getKey (delKey j k) k' = getKey j k' := by
  cases j <;> simp only [delKey, getKey]
  rename_i fs
  induction fs with
  | nil => simp
  | cons kv rest ih =>
      by_cases hk : kv.1 = k
      · subst hk
        simpa [List.filter, List.lookup, beq_false_of_ne h] using ih
      · by_cases hk' : k' = kv.1
        · simp [List.filter, hk, List.lookup, hk']
        · simpa [List.filter, hk, List.lookup, beq_false_of_ne hk'] using ih

/-- The addressed path exists as soon as the navigation chain of
`updateHook`/`deleteHook` resolves. -/
theorem hookPathExists_of_parts (doc : Json) (et : String) (mi hi : Nat)
    (hv entry hk : Json) (entries hs : List Json)
    (h1 : getKey doc "hooks" = some hv)
    (h2 : getKey hv et = some (Json.arr entries))
    (h3 : entries[mi]? = some entry)
    (h4 : getKey entry "hooks" = some (Json.arr hs))
    (h5 : hs[hi]? = some hk) :
    hookPathExists doc et mi hi = true := by
  have hlen : hi < hs.length := (List.getElem?_eq_some.mp h5).1
  simp [hookPathExists, h1, h2, h3, h4, hlen]

/-- C5.  For every `updateHook` or `deleteHook` call whose addressed path
(event type, matcher index, hook index) does not exist in the freshly re-read
well-formed settings document, the operation fails (`none`: explicit error,
nothing written) and the file content is untouched. -/
theorem C5_stale_index_no_write (doc : Json) (et : String) (mi hi : Nat)
    (u : Json) (hwf : wfSettings doc = true)
    (hne : hookPathExists doc et mi hi = false) :
    updateHook doc et mi hi u = none ∧ deleteHook doc et mi hi = none := by
  constructor
  · unfold updateHook
    repeat' split
    all_goals try rfl
    all_goals simp_all [hookPathExists, List.getElem?_eq_some]
  · unfold deleteHook
    repeat' split
    all_goals try rfl
    all_goals simp_all [hookPathExists, List.getElem?_eq_some]

/-- C5, witness: updating or deleting at a stale index (hook index 3 of a
one-hook matcher) in a well-formed settings file fails without a write. -/
theorem C5_stale_index_no_write_witness :
    updateHook
        (Json.obj [("hooks", Json.obj [("Stop",
          Json.arr [Json.obj [("matcher", Json.str "Bash"),
            ("hooks", Json.arr [Json.obj [("type", Json.str "command")]])]])])])
        "Stop" 0 3 (Json.obj [("type", Json.str "prompt")]) = none ∧
    deleteHook
        (Json.obj [("hooks", Json.obj [("Stop",
          Json.arr [Json.obj [("matcher", Json.str "Bash"),
            ("hooks", Json.arr [Json.obj [("type", Json.str "command")]])]])])])
        "Stop" 0 3 = none :=
  C5_stale_index_no_write _ "Stop" 0 3 _ (by decide) (by decide)

/-- `deleteHookCleanup` writes only through the `hooks` key. -/
theorem getKey_deleteHookCleanup_ne (doc : Json) (hfs : List (String × Json))
    (et : String) (entries : List Json) (mi : Nat) (entry : Json)
    (hooksLeft : List Json) (k : String) (hne : k ≠ "hooks") :
    getKey (deleteHookCleanup doc hfs et entries mi entry hooksLeft) k =
      getKey doc k := by
  unfold deleteHookCleanup
  repeat' split
  all_goals first
    | exact getKey_delKey_ne _ _ _ hne
    | exact getKey_setKey_ne _ _ _ _ hne

/-- C10.  Every hook mutation (`addHook`, `updateHook`, `deleteHook`) that
writes a document preserves all top-level keys other than `hooks` untouched:
the read-modify-write cycle only replaces (or deletes) the `hooks`
substructure. -/
theorem C10_frame_preservation (doc d' : Json) (et m : String) (mi hi : Nat)
    (hook u : Json) (k : String) (hne : k ≠ "hooks") :
    (addHook doc et m hook = some d' → getKey d' k = getKey doc k) ∧
    (updateHook doc et mi hi u = some d' → getKey d' k = getKey doc k) ∧
    (deleteHook doc et mi hi = some d' → getKey d' k = getKey doc k) := by
  refine ⟨?_, ?_, ?_⟩
  · intro hop
    unfold addHook at hop
    repeat' split at hop
    all_goals cases hop
    all_goals exact getKey_setKey_ne _ _ _ _ hne
  · intro hop
    unfold updateHook at hop
    repeat' split at hop
    all_goals cases hop
    all_goals exact getKey_setKey_ne _ _ _ _ hne
  · intro hop
    unfold deleteHook at hop
    repeat' split at hop
    all_goals cases hop
    all_goals exact getKey_deleteHookCleanup_ne _ _ _ _ _ _ _ _ hne

/-- C10, witness: adding a hook to a settings file with a `model` key leaves
that key intact. -/
theorem C10_frame_preservation_witness :
    addHook (Json.obj [("model", Json.str "opus")]) "Stop" "Bash"
        (Json.obj [("type", Json.str "command")]) =
      some (Json.obj [("model", Json.str "opus"),
        ("hooks", Json.obj [("Stop", Json.arr [Json.obj
          [("matcher", Json.str "Bash"),
           ("hooks", Json.arr [Json.obj [("type", Json.str "command")]])]])])]) ∧
    getKey (Json.obj [("model", Json.str "opus"),
        ("hooks", Json.obj [("Stop", Json.arr [Json.obj
          [("matcher", Json.str "Bash"),
           ("hooks", Json.arr [Json.obj [("type", Json.str "command")]])]])])]) "model" =
      getKey (Json.obj [("model", Json.str "opus")]) "model" :=
  ⟨by rfl,
   (C10_frame_preservation (Json.obj [("model", Json.str "opus")]) _ "Stop" "Bash"
      0 0 (Json.obj [("type", Json.str "command")]) (Json.null) "model"
      (by decide)).1 (by rfl)⟩

/- ----------------------------------------------------------------------
C8: per-entry skipping of malformed matcher entries in `parseHooks`. -/

/-- A fully well-formed matcher entry. -/
def c8good : Json :=
  Json.obj [("matcher", Json.str "Bash"),
            ("hooks", Json.arr [Json.obj [("type", Json.str "command"),
                                          ("command", Json.str "echo hi")]])]

/-- A settings document whose event array holds a malformed `null` entry next
to a well-formed one. -/
def c8doc : Json :=
  Json.obj [("hooks", Json.obj [("PreToolUse", Json.arr [Json.null, c8good])])]

/-- The same document without the `null` entry. -/
def c8docOk : Json :=
  Json.obj [("hooks", Json.obj [("PreToolUse", Json.arr [c8good])])]

/-- C8: the code is wrong on `null` entries.  The guard
`typeof matcherObj !== 'object'` is meant to skip malformed entries
individually, but `typeof null === 'object'` in JavaScript, so a `null`
matcher entry reaches `matcherObj.hooks`, throws, and the file-level `catch`
drops the *whole* file's hooks: the well-formed sibling entry (returned when
the `null` is absent, and skipped-over when the malformed entry is a string)
is lost.  The claim — and the guard's own intent — says it should have been
returned. -/
theorem C8_null_entry_drops_file :
    parseHooks c8doc = [] ∧
    parseHooks c8docOk =
      [⟨"PreToolUse", [⟨some (Json.str "Bash"),
        [Json.obj [("type", Json.str "command"),
                   ("command", Json.str "echo hi")]]⟩]⟩] ∧
    parseHooks (Json.obj [("hooks", Json.obj [("PreToolUse",
        Json.arr [Json.str "malformed", c8good])])]) =
      [⟨"PreToolUse", [⟨some (Json.str "Bash"),
        [Json.obj [("type", Json.str "command"),
                   ("command", Json.str "echo hi")]]⟩]⟩] :=
  ⟨rfl, rfl, rfl⟩

/- ----------------------------------------------------------------------
C7: `addHook` matcher-entry sharing. -/

theorem set_concat_length (es : List Json) (a b : Json) :
    (es ++ [a]).set es.length b = es ++ [b] := by
  induction es with
  | nil => rfl
  | cons x xs ih => simp [List.set, ih]

/-- Appending a matching, non-`null` entry to an array with no match makes the
`find` land exactly on the appended entry. -/
theorem findMatcherIdx_concat_found (es : List Json) (e : Json) (m : String)
    (hno : findMatcherIdx es m = some none)
    (hnotnull : isNull e = false) (hmatch : matcherFieldIs e m = true) :
    findMatcherIdx (es ++ [e]) m = some (some es.length) := by
  induction es with
  | nil => simp [findMatcherIdx, hnotnull, hmatch]
  | cons x xs ih =>
      simp only [findMatcherIdx, List.cons_append] at hno ⊢
      by_cases hxnull : isNull x = true
      · simp [hxnull] at hno
      · rw [Bool.not_eq_true] at hxnull
        simp only [hxnull, Bool.false_eq_true, if_false] at hno ⊢
        by_cases hm : matcherFieldIs x m = true
        · simp [hm] at hno
        · rw [Bool.not_eq_true] at hm
          simp only [hm, Bool.false_eq_true, if_false] at hno ⊢
          have hxs : findMatcherIdx xs m = some none := by
            cases hfs : findMatcherIdx xs m with
            | none => simp [hfs] at hno
            | some o =>
                cases o with
                | none => rfl
                | some i => simp [hfs] at hno
          simp [ih hxs]

/-- C7.  `addHook` locates the matcher entry by exact string equality on the
`matcher` field, creating a new entry only when none matches, and appends the
hook to that entry's list: starting from any well-formed settings object whose
normalized event array has no entry matching `m`, two `addHook` calls with the
same event type and matcher string leave the original entries untouched and
append exactly one shared new entry containing both hooks — never two separate
entries. -/
theorem C7_addHook_shared_matcher (dfs hfs : List (String × Json))
    (et m : String) (h1 h2 : Json) (entries : List Json)
    (hhv : normHooksVal (Json.obj dfs) = Json.obj hfs)
    (harr : normEtArr (Json.obj hfs) et = Json.arr entries)
    (hfind : findMatcherIdx entries m = some none) :
    ∃ d1 d2,
      addHook (Json.obj dfs) et m h1 = some d1 ∧
      addHook d1 et m h2 = some d2 ∧
      (getKey d1 "hooks").bind (fun hv => getKey hv et) =
        some (Json.arr (entries ++ [newMatcherEntry m h1])) ∧
      (getKey d2 "hooks").bind (fun hv => getKey hv et) =
        some (Json.arr (entries ++ [Json.obj [("matcher", Json.str m),
          ("hooks", Json.arr [h1, h2])]])) := by
  have had1 : addHook (Json.obj dfs) et m h1 =
      some (Json.obj (setField dfs "hooks" (Json.obj (setField hfs et
        (Json.arr (entries ++ [newMatcherEntry m h1])))))) := by
    simp [addHook, hhv, harr, hfind, setKey]
  have hget1 : getKey (Json.obj (setField dfs "hooks" (Json.obj (setField hfs et
      (Json.arr (entries ++ [newMatcherEntry m h1])))))) "hooks" =
      some (Json.obj (setField hfs et (Json.arr (entries ++ [newMatcherEntry m h1])))) := by
    simp [getKey, lookup_setField_self]
  have hhv1 : normHooksVal (Json.obj (setField dfs "hooks" (Json.obj (setField hfs et
      (Json.arr (entries ++ [newMatcherEntry m h1])))))) =
      Json.obj (setField hfs et (Json.arr (entries ++ [newMatcherEntry m h1]))) := by
    simp [normHooksVal, hget1, jsTruthy]
  have harr1 : normEtArr (Json.obj (setField hfs et
      (Json.arr (entries ++ [newMatcherEntry m h1])))) et =
      Json.arr (entries ++ [newMatcherEntry m h1]) := by
    simp [normEtArr, getKey, lookup_setField_self, jsTruthy]
  have hfind1 : findMatcherIdx (entries ++ [newMatcherEntry m h1]) m =
      some (some entries.length) := by
    refine findMatcherIdx_concat_found entries _ m hfind (by simp [isNull, newMatcherEntry]) ?_
    simp [matcherFieldIs, newMatcherEntry, getKey]
  have hidx : (entries ++ [newMatcherEntry m h1])[entries.length]? =
      some (newMatcherEntry m h1) := List.getElem?_concat_length _ _
  have hhooks1 : getKey (newMatcherEntry m h1) "hooks" = some (Json.arr [h1]) := by
    simp [newMatcherEntry, getKey, List.lookup]
  have had2 : addHook (Json.obj (setField dfs "hooks" (Json.obj (setField hfs et
      (Json.arr (entries ++ [newMatcherEntry m h1])))))) et m h2 =
      some (Json.obj (setField (setField dfs "hooks" (Json.obj (setField hfs et
        (Json.arr (entries ++ [newMatcherEntry m h1]))))) "hooks"
        (Json.obj (setField (setField hfs et (Json.arr (entries ++ [newMatcherEntry m h1]))) et
          (Json.arr (entries ++ [Json.obj [("matcher", Json.str m),
            ("hooks", Json.arr [h1, h2])]])))))) := by
    simp only [addHook, hhv1, harr1, hfind1, hidx, hhooks1, setKey]
    rw [set_concat_length]
    simp [newMatcherEntry, setField]
  refine ⟨_, _, had1, had2, ?_, ?_⟩
  · simp [getKey, lookup_setField_self]
  · simp [getKey, lookup_setField_self]

/-- C7, witness: the theorem at the empty settings document with two concrete
hooks. -/
theorem C7_addHook_shared_matcher_witness :
    ∃ d1 d2,
      addHook (Json.obj []) "PreToolUse" "Bash"
        (Json.obj [("type", Json.str "command")]) = some d1 ∧
      addHook d1 "PreToolUse" "Bash"
        (Json.obj [("type", Json.str "prompt")]) = some d2 ∧
      (getKey d1 "hooks").bind (fun hv => getKey hv "PreToolUse") =
        some (Json.arr [newMatcherEntry "Bash" (Json.obj [("type", Json.str "command")])]) ∧
      (getKey d2 "hooks").bind (fun hv => getKey hv "PreToolUse") =
        some (Json.arr [Json.obj [("matcher", Json.str "Bash"),
          ("hooks", Json.arr [Json.obj [("type", Json.str "command")],
                              Json.obj [("type", Json.str "prompt")]])]]) := by
  have h := C7_addHook_shared_matcher [] [] "PreToolUse" "Bash"
    (Json.obj [("type", Json.str "command")]) (Json.obj [("type", Json.str "prompt")])
    [] (by rfl) (by rfl) (by rfl)
  simpa using h

/- ----------------------------------------------------------------------
C6: the cascade cleanup of `deleteHook`. -/

/-- In a key-unique association list, a present key whose removal empties the
list was the only binding. -/
theorem filter_ne_nil_of_lookup (fs : List (String × Json)) (k : String) (v : Json)
    (hnodup : (fs.map Prod.fst).Nodup) (hlk : fs.lookup k = some v)
    (hfil : fs.filter (fun kv => kv.1 ≠ k) = []) : fs = [(k, v)] := by
  induction fs with
  | nil => simp [List.lookup] at hlk
  | cons kv rest ih =>
      have hk : kv.1 = k := by
        by_contra hne
        have : kv ∈ List.filter (fun kv => decide (kv.1 ≠ k)) (kv :: rest) := by
          simp [List.mem_filter, hne]
        rw [hfil] at this
        cases this
      have hrest : rest = [] := by
        rcases rest with - | ⟨kv2, rest2⟩
        · rfl
        · have hk2 : kv2.1 = k := by
            by_contra hne2
            have : kv2 ∈ List.filter (fun kv => decide (kv.1 ≠ k)) (kv :: kv2 :: rest2) := by
              simp [List.mem_filter, hne2]
            rw [hfil] at this
            cases this
          exfalso
          simp only [List.map_cons, List.nodup_cons] at hnodup
          exact hnodup.1 (by simp [hk, hk2])
      subst hrest
      obtain ⟨k0, v0⟩ := kv
      simp only at hk
      subst hk
      simp [List.lookup] at hlk
      simp [hlk]

/-- C6.  A successful `deleteHook` writes the minimal normalized document:
the matcher entry is dropped exactly when its hooks list became empty, the
event-type array is dropped exactly when it became empty, and the `hooks` key
itself is dropped when no event types remain — deleting the last hook of the
last matcher of the last event type leaves a settings document with no `hooks`
key at all.  Other matcher entries, other event types, and the remaining hooks
of the addressed entry are kept as they were. -/
theorem C6_delete_cascade (dfs hfs efs : List (String × Json)) (et : String)
    (mi hi : Nat) (entries hs : List Json) (hv : Json)
    (h1 : getKey (Json.obj dfs) "hooks" = some (Json.obj hfs))
    (h2 : getKey (Json.obj hfs) et = some (Json.arr entries))
    (h3 : entries[mi]? = some (Json.obj efs))
    (h4 : getKey (Json.obj efs) "hooks" = some (Json.arr hs))
    (h5 : hs[hi]? = some hv) (h6 : jsTruthy hv = true)
    (hnodup : (hfs.map Prod.fst).Nodup) :
    ∃ d', deleteHook (Json.obj dfs) et mi hi = some d' ∧
      (hs.length = 1 → entries.length = 1 → hfs.length = 1 →
         getKey d' "hooks" = none) ∧
      (hs.length = 1 → entries.length = 1 → hfs.length ≠ 1 →
         ∃ hfs', getKey d' "hooks" = some (Json.obj hfs') ∧ hfs' ≠ [] ∧
           getKey (Json.obj hfs') et = none ∧
           ∀ k, k ≠ et → getKey (Json.obj hfs') k = getKey (Json.obj hfs) k) ∧
      (hs.length = 1 → entries.length ≠ 1 →
         (getKey d' "hooks").bind (fun v => getKey v et) =
           some (Json.arr (entries.eraseIdx mi))) ∧
      (hs.length ≠ 1 →
         (getKey d' "hooks").bind (fun v => getKey v et) =
           some (Json.arr (entries.set mi
             (setKey (Json.obj efs) "hooks" (Json.arr (hs.eraseIdx hi)))))) := by
  have hhi : hi < hs.length := (List.getElem?_eq_some.mp h5).1
  have hmi : mi < entries.length := (List.getElem?_eq_some.mp h3).1
  have hdel : deleteHook (Json.obj dfs) et mi hi =
      some (deleteHookCleanup (Json.obj dfs) hfs et entries mi (Json.obj efs)
        (hs.eraseIdx hi)) := by
    simp [deleteHook, h1, h2, h3, h4, h5, h6]
  have hhslen : (hs.eraseIdx hi).length = hs.length - 1 :=
    List.length_eraseIdx_of_lt hhi
  have hentlen : (entries.eraseIdx mi).length = entries.length - 1 :=
    List.length_eraseIdx_of_lt hmi
  refine ⟨_, hdel, ?_, ?_, ?_, ?_⟩
  · intro hh he hf
    have hsingle : hfs = [(et, Json.arr entries)] := by
      rcases hfs with - | ⟨⟨k0, v0⟩, rest⟩
      · simp [getKey, List.lookup] at h2
      · have : rest = [] := by
          simpa using hf
        subst this
        simp only [getKey, List.lookup] at h2
        rcases hbeq : (et == k0) with - | -
        · rw [hbeq] at h2
          cases h2
        · rw [hbeq] at h2
          simp only [Option.some.injEq] at h2
          have : et = k0 := by
            simpa using hbeq
          simp [← this, h2]
    unfold deleteHookCleanup
    rw [if_pos (by omega), if_pos (by omega)]
    have hdk : delKey (Json.obj hfs) et = Json.obj [] := by
      simp [delKey, hsingle]
    rw [hdk]
    exact getKey_delKey_self dfs "hooks"
  · intro hh he hf
    unfold deleteHookCleanup
    rw [if_pos (by omega), if_pos (by omega)]
    have hfil : hfs.filter (fun kv => kv.1 ≠ et) ≠ [] := by
      intro hcontra
      have := filter_ne_nil_of_lookup hfs et (Json.arr entries) hnodup
        (by simpa [getKey] using h2) hcontra
      exact hf (by simp [this])
    rcases hres : hfs.filter (fun kv => kv.1 ≠ et) with - | ⟨kv1, rest1⟩
    · exact absurd hres hfil
    · have hres' : List.filter (fun kv => !decide (kv.1 = et)) hfs = kv1 :: rest1 := by
        simpa using hres
      have hdk : delKey (Json.obj hfs) et = Json.obj (kv1 :: rest1) := by
        simp [delKey, hres']
      rw [hdk]
      refine ⟨kv1 :: rest1, ?_, by simp, ?_, ?_⟩
      · simp [setKey, getKey, lookup_setField_self]
      · have := getKey_delKey_self hfs et
        rwa [hdk] at this
      · intro k hk
        have := getKey_delKey_ne (Json.obj hfs) et k hk
        rwa [hdk] at this
  · intro hh he
    unfold deleteHookCleanup
    rw [if_pos (by omega), if_neg (by omega)]
    simp [setKey, getKey, lookup_setField_self]
  · intro hh
    have : (hs.eraseIdx hi).length ≠ 0 := by omega
    unfold deleteHookCleanup
    rw [if_neg this]
    simp [setKey, getKey, lookup_setField_self]

/-- C6, witness: deleting the last hook of the last matcher of the last event
type leaves no `hooks` key at all. -/
theorem C6_delete_cascade_witness :
    ∃ d', deleteHook
        (Json.obj [("hooks", Json.obj [("Stop", Json.arr
          [Json.obj [("matcher", Json.str "Bash"),
            ("hooks", Json.arr [Json.obj [("type", Json.str "command")]])]])])])
        "Stop" 0 0 = some d' ∧
      getKey d' "hooks" = none := by
  obtain ⟨d', hd, ha, -, -, -⟩ :=
    C6_delete_cascade
      [("hooks", Json.obj [("Stop", Json.arr
        [Json.obj [("matcher", Json.str "Bash"),
          ("hooks", Json.arr [Json.obj [("type", Json.str "command")]])]])])]
      [("Stop", Json.arr
        [Json.obj [("matcher", Json.str "Bash"),
          ("hooks", Json.arr [Json.obj [("type", Json.str "command")]])]])]
      [("matcher", Json.str "Bash"),
       ("hooks", Json.arr [Json.obj [("type", Json.str "command")]])]
      "Stop" 0 0
      [Json.obj [("matcher", Json.str "Bash"),
        ("hooks", Json.arr [Json.obj [("type", Json.str "command")]])]]
      [Json.obj [("type", Json.str "command")]]
      (Json.obj [("type", Json.str "command")])
      rfl rfl rfl rfl rfl rfl (by simp)
  exact ⟨d', hd, ha rfl rfl rfl⟩

/- ----------------------------------------------------------------------
C9: round trip `addHook` → `parseHooks`. -/

/-- A successful association-list lookup is a membership. -/
theorem lookup_mem (fs : List (String × Json)) (k : String) (v : Json)
    (h : fs.lookup k = some v) : (k, v) ∈ fs := by
  induction fs with
  | nil => simp [List.lookup] at h
  | cons kv rest ih =>
      simp only [List.lookup] at h
      rcases hbeq : (k == kv.1) with - | -
      · rw [hbeq] at h
        exact List.mem_cons_of_mem _ (ih h)
      · rw [hbeq] at h
        simp only [Option.some.injEq] at h
        have hk : k = kv.1 := by simpa using hbeq
        have hkv : kv = (k, v) := by
          obtain ⟨k1, v1⟩ := kv
          simp_all
        rw [hkv]
        exact List.mem_cons_self _ _

/-- Everything in `setField fs k v` is either old or the new binding. -/
theorem mem_setField (fs : List (String × Json)) (k : String) (v : Json)
    (kv : String × Json) (h : kv ∈ setField fs k v) : kv ∈ fs ∨ kv = (k, v) := by
  induction fs with
  | nil =>
      simp [setField] at h
      right
      simp [h]
  | cons kv0 rest ih =>
      simp only [setField] at h
      by_cases hk : kv0.1 = k
      · rw [if_pos hk] at h
        rcases List.mem_cons.mp h with heq | hmem
        · right
          simp [heq]
        · exact Or.inl (List.mem_cons_of_mem _ hmem)
      · rw [if_neg hk] at h
        rcases List.mem_cons.mp h with heq | hmem
        · exact Or.inl (by simp [heq])
        · rcases ih hmem with hold | hnew
          · exact Or.inl (List.mem_cons_of_mem _ hold)
          · exact Or.inr hnew

/-- The assigned binding is present in `setField fs k v`. -/
theorem mem_setField_self (fs : List (String × Json)) (k : String) (v : Json) :
    (k, v) ∈ setField fs k v := by
  induction fs with
  | nil => simp [setField]
  | cons kv0 rest ih =>
      simp only [setField]
      by_cases hk : kv0.1 = k
      · simp [hk]
      · simp only [if_neg hk]
        exact List.mem_cons_of_mem _ ih

/-- When `find` reports a hit at `i`, the element at `i` matches. -/
theorem findMatcherIdx_sound (es : List Json) (m : String) (i : Nat)
    (h : findMatcherIdx es m = some (some i)) :
    ∃ e, es[i]? = some e ∧ matcherFieldIs e m = true := by
  induction es generalizing i with
  | nil => simp [findMatcherIdx] at h
  | cons x xs ih =>
      simp only [findMatcherIdx] at h
      by_cases hxnull : isNull x = true
      · simp [hxnull] at h
      · rw [Bool.not_eq_true] at hxnull
        rw [hxnull] at h
        simp only [Bool.false_eq_true, if_false] at h
        by_cases hm : matcherFieldIs x m = true
        · rw [if_pos hm] at h
          simp only [Option.some.injEq] at h
          exact ⟨x, by simp [← h], hm⟩
        · rw [Bool.not_eq_true] at hm
          rw [hm] at h
          simp only [Bool.false_eq_true, if_false] at h
          rcases hfs : findMatcherIdx xs m with - | o
          · simp [hfs] at h
          · rcases o with - | j
            · simp [hfs] at h
            · simp only [hfs, Option.map_some', Option.some.injEq] at h
              obtain ⟨e, he, hme⟩ := ih j hfs
              refine ⟨e, ?_, hme⟩
              rw [← h]
              simpa using he

/-- The matcher structure `parseHooks` reconstructs from one entry object. -/
def entryToMatcher (e : Json) : HookMatcher :=
  ⟨getKey e "matcher",
   match getKey e "hooks" with
   | some (Json.arr hs) => hs
   | _ => []⟩

/-- Event-array well-formedness of one `hooks` field value. -/
def eventWF (v : Json) : Bool :=
  match v with
  | Json.arr es => es.all wfEntry
  | _ => false

/-- A well-formed entry is kept verbatim by the matcher-entry guard. -/
theorem parseMatcherObj_wf (e : Json) (hwf : wfEntry e = true) :
    parseMatcherObj e = some (some (entryToMatcher e)) := by
  cases e with
  | null => simp [wfEntry, isObj] at hwf
  | bool b => simp [wfEntry, isObj] at hwf
  | num n => simp [wfEntry, isObj] at hwf
  | str str => simp [wfEntry, isObj] at hwf
  | arr xs => simp [wfEntry, isObj] at hwf
  | obj fs =>
      simp only [wfEntry, isObj, Bool.true_and] at hwf
      rcases hlk : getKey (Json.obj fs) "hooks" with - | v
      · rw [hlk] at hwf
        simp at hwf
      · rw [hlk] at hwf
        cases v with
        | arr hs => simp [parseMatcherObj, entryToMatcher, hlk]
        | null => simp at hwf
        | bool b => simp at hwf
        | num n => simp at hwf
        | str str => simp at hwf
        | obj fs2 => simp at hwf

/-- A fully well-formed matcher array parses without a throw, keeping every
entry in order. -/
theorem parseEventMatchers_wf (es : List Json) (hwf : es.all wfEntry = true) :
    parseEventMatchers es = some (es.map entryToMatcher) := by
  induction es with
  | nil => rfl
  | cons e rest ih =>
      simp only [List.all_cons, Bool.and_eq_true] at hwf
      simp [parseEventMatchers, parseMatcherObj_wf e hwf.1, ih hwf.2]

/-- One step of `parseHooksGo` on a well-formed event field. -/
theorem parseHooksGo_cons_arr (k : String) (es : List Json)
    (rest : List (String × Json)) (hes : es.all wfEntry = true) :
    parseHooksGo ((k, Json.arr es) :: rest) =
      (parseHooksGo rest).map (fun cs =>
        if (es.map entryToMatcher).length > 0 then
          (⟨k, es.map entryToMatcher⟩ : HookConfiguration) :: cs
        else cs) := by
  simp [parseHooksGo, parseEventMatchers_wf es hes]

/-- Well-formed field lists parse without a throw. -/
theorem parseHooksGo_total (fields : List (String × Json))
    (hwf : ∀ kv ∈ fields, eventWF kv.2 = true) :
    ∃ cs, parseHooksGo fields = some cs := by
  induction fields with
  | nil => exact ⟨[], rfl⟩
  | cons kv rest ih =>
      obtain ⟨cs, hcs⟩ := ih (fun kv2 h2 => hwf kv2 (List.mem_cons_of_mem _ h2))
      have hkv := hwf kv (List.mem_cons_self _ _)
      obtain ⟨k, v⟩ := kv
      cases v
      case arr es =>
        simp only [eventWF] at hkv
        rw [parseHooksGo_cons_arr k es rest hkv, hcs]
        exact ⟨_, rfl⟩
      all_goals simp [eventWF] at hkv

/-- A nonempty well-formed event field yields its configuration in the parse
output. -/
theorem parseHooksGo_mem (fields : List (String × Json)) (et : String)
    (es : List Json)
    (hwf : ∀ kv ∈ fields, eventWF kv.2 = true)
    (hmem : (et, Json.arr es) ∈ fields) (hlen : 0 < es.length) :
    ∃ cs, parseHooksGo fields = some cs ∧
      (⟨et, es.map entryToMatcher⟩ : HookConfiguration) ∈ cs := by
  induction fields with
  | nil => cases hmem
  | cons kv rest ih =>
      have hkv := hwf kv (List.mem_cons_self _ _)
      rcases List.mem_cons.mp hmem with heq | hmemrest
      · subst heq
        simp only [eventWF] at hkv
        obtain ⟨cs', hcs'⟩ := parseHooksGo_total rest
          (fun kv2 h2 => hwf kv2 (List.mem_cons_of_mem _ h2))
        rw [parseHooksGo_cons_arr et es rest hkv, hcs']
        have hlen' : (es.map entryToMatcher).length > 0 := by simpa using hlen
        rw [Option.map_some']
        exact ⟨_, rfl, by simp [hlen, hlen']⟩
      · obtain ⟨cs', hcs', hmem'⟩ := ih
          (fun kv2 h2 => hwf kv2 (List.mem_cons_of_mem _ h2)) hmemrest
        obtain ⟨k, v⟩ := kv
        cases v
        case arr es2 =>
          simp only [eventWF] at hkv
          rw [parseHooksGo_cons_arr k es2 rest hkv, hcs']
          rw [Option.map_some']
          refine ⟨_, rfl, ?_⟩
          split <;> simp [hmem']
        all_goals simp [eventWF] at hkv

/-- A positive `find` test pins down the `matcher` field. -/
theorem matcherFieldIs_getKey (e : Json) (m : String)
    (h : matcherFieldIs e m = true) : getKey e "matcher" = some (Json.str m) := by
  unfold matcherFieldIs at h
  rcases hg : getKey e "matcher" with - | v
  · rw [hg] at h
    cases h
  · rw [hg] at h
    cases v <;> simp_all

/-- The hooks value `addHook` starts from is well-formed when the settings
document is. -/
theorem normHooksVal_wf (doc : Json) (hfs : List (String × Json))
    (hwf : wfSettings doc = true) (h : normHooksVal doc = Json.obj hfs) :
    ∀ kv ∈ hfs, eventWF kv.2 = true := by
  unfold normHooksVal at h
  rcases hg : getKey doc "hooks" with - | v
  · rw [hg] at h
    simp only [Json.obj.injEq] at h
    subst h
    intro kv hkv
    cases hkv
  · rw [hg] at h
    have hv : wfHooksVal v = true := by
      unfold wfSettings at hwf
      rw [hg] at hwf
      exact (Bool.and_eq_true_iff.mp hwf).2
    cases v with
    | obj fs =>
        simp only [jsTruthy, if_true, Json.obj.injEq] at h
        subst h
        simp only [wfHooksVal, Bool.and_eq_true_iff] at hv
        intro kv hkv
        have := (List.all_eq_true.mp hv.2) kv hkv
        simpa [eventWF] using this
    | null => simp [wfHooksVal] at hv
    | bool b => simp [wfHooksVal] at hv
    | num n => simp [wfHooksVal] at hv
    | str s => simp [wfHooksVal] at hv
    | arr xs => simp [wfHooksVal] at hv

/-- The event array `addHook` starts from is well-formed when the hooks value
is. -/
theorem normEtArr_wf (hfs : List (String × Json)) (et : String)
    (entries : List Json) (hfswf : ∀ kv ∈ hfs, eventWF kv.2 = true)
    (h : normEtArr (Json.obj hfs) et = Json.arr entries) :
    entries.all wfEntry = true := by
  unfold normEtArr at h
  rcases hg : getKey (Json.obj hfs) et with - | v
  · rw [hg] at h
    simp only [Json.arr.injEq] at h
    subst h
    rfl
  · rw [hg] at h
    have hmem : (et, v) ∈ hfs := lookup_mem hfs et v (by simpa [getKey] using hg)
    have hv := hfswf (et, v) hmem
    cases v with
    | arr es =>
        simp only [jsTruthy, if_true, Json.arr.injEq] at h
        subst h
        simpa [eventWF] using hv
    | null => simp [eventWF] at hv
    | bool b => simp [eventWF] at hv
    | num n => simp [eventWF] at hv
    | str s => simp [eventWF] at hv
    | obj fs => simp [eventWF] at hv

/-- Common final step of the round trip: a written document whose `hooks[et]`
array contains a well-formed entry with matcher `m` and the new hook re-parses
to a configuration exhibiting that hook. -/
theorem roundtrip_scaffold (dfs hfs : List (String × Json)) (et m : String)
    (h e' : Json) (entries' : List Json)
    (hfswf : ∀ kv ∈ hfs, eventWF kv.2 = true)
    (hwfE : entries'.all wfEntry = true)
    (hmemE : e' ∈ entries')
    (hmat : getKey e' "matcher" = some (Json.str m))
    (hhk : ∃ hsNew, getKey e' "hooks" = some (Json.arr hsNew) ∧ h ∈ hsNew) :
    ∃ cfg, cfg ∈ parseHooks (Json.obj (setField dfs "hooks"
        (Json.obj (setField hfs et (Json.arr entries'))))) ∧
      cfg.eventType = et ∧
      ∃ mt, mt ∈ cfg.matchers ∧ mt.matcher = some (Json.str m) ∧ h ∈ mt.hooks := by
  obtain ⟨hsNew, hhk', hmemh⟩ := hhk
  have hF : ∀ kv ∈ setField hfs et (Json.arr entries'), eventWF kv.2 = true := by
    intro kv hkv
    rcases mem_setField hfs et (Json.arr entries') kv hkv with hold | hnew
    · exact hfswf kv hold
    · rw [hnew]
      simpa [eventWF] using hwfE
  have hlen : 0 < entries'.length :=
    List.length_pos.mpr (List.ne_nil_of_mem hmemE)
  obtain ⟨cs, hgo, hc⟩ := parseHooksGo_mem (setField hfs et (Json.arr entries'))
    et entries' hF (mem_setField_self _ _ _) hlen
  have hparse : parseHooks (Json.obj (setField dfs "hooks"
      (Json.obj (setField hfs et (Json.arr entries'))))) = cs := by
    simp [parseHooks, parseHooksCore, getKey, lookup_setField_self, jsTruthy,
      typeofObject, objEntries, hgo]
  refine ⟨⟨et, entries'.map entryToMatcher⟩, by rw [hparse]; exact hc, rfl,
    entryToMatcher e', List.mem_map_of_mem _ hmemE, ?_, ?_⟩
  · simp [entryToMatcher, hmat]
  · simp [entryToMatcher, hhk', hmemh]

/-- Inversion of a successful `addHook`: the document was an object and the
written document extends either the matched entry or a freshly appended
one. -/
theorem addHook_inv (doc d' : Json) (et m : String) (h : Json)
    (hadd : addHook doc et m h = some d') :
    ∃ dfs hfs entries, doc = Json.obj dfs ∧
      normHooksVal doc = Json.obj hfs ∧
      normEtArr (Json.obj hfs) et = Json.arr entries ∧
      ((∃ i entry hs, findMatcherIdx entries m = some (some i) ∧
          entries[i]? = some entry ∧
          getKey entry "hooks" = some (Json.arr hs) ∧
          d' = setKey doc "hooks" (setKey (Json.obj hfs) et
            (Json.arr (entries.set i
              (setKey entry "hooks" (Json.arr (hs ++ [h]))))))) ∨
       (findMatcherIdx entries m = some none ∧
          d' = setKey doc "hooks" (setKey (Json.obj hfs) et
            (Json.arr (entries ++ [newMatcherEntry m h]))))) := by
  unfold addHook at hadd
  repeat' split at hadd
  all_goals cases hadd
  all_goals first
    | exact ⟨_, _, _, rfl, ‹_›, ‹_›, Or.inl ⟨_, _, _, ‹_›, ‹_›, ‹_›, rfl⟩⟩
    | exact ⟨_, _, _, rfl, ‹_›, ‹_›, Or.inr ⟨‹_›, rfl⟩⟩

/-- C9.  Round trip: writing a hook object via `addHook` into a well-formed
settings document and re-parsing the written document with
`parseHooks`/`discoverHooks` reconstructs an equivalent structure — a
configuration with the same event type containing a matcher entry with the
same matcher string whose hooks list contains the added hook verbatim (same
type, command/prompt text and timeout fields). -/
theorem C9_roundtrip (doc d' : Json) (et m : String) (h : Json)
    (hwf : wfSettings doc = true) (hobj : isObj h = true)
    (hadd : addHook doc et m h = some d') :
    ∃ cfg, cfg ∈ parseHooks d' ∧ cfg.eventType = et ∧
      ∃ mt, mt ∈ cfg.matchers ∧ mt.matcher = some (Json.str m) ∧ h ∈ mt.hooks := by
  obtain ⟨dfs, hfs, entries, hdoc, hnh, hne, hcase⟩ := addHook_inv doc d' et m h hadd
  subst hdoc
  have hfswf : ∀ kv ∈ hfs, eventWF kv.2 = true :=
    normHooksVal_wf (Json.obj dfs) hfs hwf hnh
  have hentwf : entries.all wfEntry = true := normEtArr_wf hfs et entries hfswf hne
  rcases hcase with ⟨i, entry, hs, hf, hidx, hget, hd'⟩ | ⟨hf, hd'⟩
  · -- an entry matched: the hook is appended to it
    subst hd'
    have hment : entry ∈ entries := List.getElem?_mem hidx
    have hentryWf : wfEntry entry = true := List.all_eq_true.mp hentwf entry hment
    have hiLt : i < entries.length := (List.getElem?_eq_some.mp hidx).1
    obtain ⟨efs, rfl⟩ : ∃ efs, entry = Json.obj efs := by
      cases entry <;> simp_all [wfEntry, isObj]
    have hhswf : hs.all wfHook = true := by
      unfold wfEntry at hentryWf
      rw [hget] at hentryWf
      exact (Bool.and_eq_true_iff.mp hentryWf).2
    have hmatch : matcherFieldIs (Json.obj efs) m = true := by
      obtain ⟨e0, he0, hme0⟩ := findMatcherIdx_sound entries m i hf
      rw [hidx] at he0
      cases he0
      exact hme0
    refine roundtrip_scaffold dfs hfs et m h
      (setKey (Json.obj efs) "hooks" (Json.arr (hs ++ [h])))
      (entries.set i (setKey (Json.obj efs) "hooks" (Json.arr (hs ++ [h]))))
      hfswf ?_ ?_ ?_ ?_
    · refine List.all_eq_true.mpr ?_
      intro x hx
      rcases List.mem_or_eq_of_mem_set hx with hold | hnew
      · exact List.all_eq_true.mp hentwf x hold
      · subst hnew
        have hself := getKey_setKey_self efs "hooks" (Json.arr (hs ++ [h]))
        simp only [wfEntry, setKey, isObj, Bool.true_and]
        rw [show getKey (Json.obj (setField efs "hooks" (Json.arr (hs ++ [h]))))
              "hooks" = some (Json.arr (hs ++ [h])) from hself]
        show (hs ++ [h]).all wfHook = true
        rw [List.all_append]
        refine Bool.and_eq_true_iff.mpr ⟨hhswf, ?_⟩
        simpa [wfHook] using hobj
    · exact List.getElem?_mem (List.getElem?_set_self (by simpa using hiLt))
    · rw [getKey_setKey_ne (Json.obj efs) "hooks" "matcher" _ (by decide)]
      exact matcherFieldIs_getKey (Json.obj efs) m hmatch
    · exact ⟨hs ++ [h], getKey_setKey_self efs "hooks" (Json.arr (hs ++ [h])), by simp⟩
  · -- no matching entry: a fresh one is appended
    subst hd'
    refine roundtrip_scaffold dfs hfs et m h (newMatcherEntry m h)
      (entries ++ [newMatcherEntry m h]) hfswf ?_ (by simp) ?_ ?_
    · rw [List.all_append]
      refine Bool.and_eq_true_iff.mpr ⟨hentwf, ?_⟩
      have hwfnew : wfEntry (newMatcherEntry m h) = true := by
        unfold wfEntry newMatcherEntry
        simp only [isObj, Bool.true_and]
        rw [show getKey (Json.obj [("matcher", Json.str m), ("hooks", Json.arr [h])])
              "hooks" = some (Json.arr [h]) from rfl]
        show ([h]).all wfHook = true
        simp [wfHook, hobj]
      simp [hwfnew]
    · simp [newMatcherEntry, getKey, List.lookup]
    · exact ⟨[h], by simp [newMatcherEntry, getKey, List.lookup], by simp⟩

/-- C9, witness: adding a command hook with a timeout to an empty settings
document and re-parsing the written file exhibits the identical hook. -/
theorem C9_roundtrip_witness :
    ∃ cfg, cfg ∈ parseHooks
        (Json.obj [("hooks", Json.obj [("PreToolUse", Json.arr
          [Json.obj [("matcher", Json.str "Bash"),
            ("hooks", Json.arr [Json.obj [("type", Json.str "command"),
              ("command", Json.str "echo hi"), ("timeout", Json.num 60)]])]])])]) ∧
      cfg.eventType = "PreToolUse" ∧
      ∃ mt, mt ∈ cfg.matchers ∧ mt.matcher = some (Json.str "Bash") ∧
        Json.obj [("type", Json.str "command"), ("command", Json.str "echo hi"),
          ("timeout", Json.num 60)] ∈ mt.hooks :=
  C9_roundtrip (Json.obj []) _ "PreToolUse" "Bash"
    (Json.obj [("type", Json.str "command"), ("command", Json.str "echo hi"),
      ("timeout", Json.num 60)])
    (by rfl) (by rfl) (by rfl)
